import Mathlib

/-!
Shallow embedding of the query-understanding core of the `astrbot_plugin_bazaar`
repository (`main.py`): alias resolution, vocabulary building, mixed-script
tokenization, condition parsing, catalog filtering, entity-resolution
disambiguation, and fuzzy suggestion.

Python strings are modelled as `List Char`; Python dicts (which preserve
insertion order, update values in place, and append new keys at the end) are
modelled as association lists with those semantics; Python's stable `sort` is
modelled by a stable insertion sort.
-/

/-- Python strings are modelled as lists of characters. -/
abbrev Str := List Char

/-- Convert a Lean string literal to the `Str` model. -/
def str (s : String) : Str := s.data

/-- Model of Python `str.lower` on a single character (ASCII range; the
concrete data exercised here is ASCII or CJK, where Python's `lower` agrees). -/
def lowChar (c : Char) : Char :=
  if 65 ≤ c.toNat ∧ c.toNat ≤ 90 then Char.ofNat (c.toNat + 32) else c

/-- Model of Python `str.upper` on a single character (ASCII range). -/
def upChar (c : Char) : Char :=
  if 97 ≤ c.toNat ∧ c.toNat ≤ 122 then Char.ofNat (c.toNat - 32) else c

/-- Model of Python `str.lower`. -/
def lower (s : Str) : Str := s.map lowChar

/-- Model of Python `str.capitalize`: first character uppercased, rest lowered. -/
def capitalizePy : Str → Str
  | [] => []
  | c :: cs => upChar c :: lower cs

/-- Model of Python `str.strip`. -/
def trim (s : Str) : Str :=
  ((s.dropWhile Char.isWhitespace).reverse.dropWhile Char.isWhitespace).reverse

/-- Worker for `splitWs`: `acc` is the current in-progress word, reversed. -/
def splitWsAux : Str → Str → List Str
  | [], acc => if acc = [] then [] else [acc.reverse]
  | c :: cs, acc =>
    if c.isWhitespace then
      if acc = [] then splitWsAux cs [] else acc.reverse :: splitWsAux cs []
    else splitWsAux cs (c :: acc)

/-- Model of Python `str.split()` with no argument: split on whitespace runs,
dropping empty fragments. -/
def splitWs (s : Str) : List Str := splitWsAux s []

/-- Model of Python `str.split(sep)` for a one-character separator
(all fragments kept, including empty ones; `"".split(sep) == [""]`). -/
def splitChar (sep : Char) : Str → List Str
  | [] => [[]]
  | c :: cs =>
    if c = sep then [] :: splitChar sep cs
    else
      match splitChar sep cs with
      | [] => [[c]]
      | w :: ws => (c :: w) :: ws

/-- Index of the first occurrence of `t` in `s` (Python `s.find(t)`, with
`none` standing for Python's `-1`). -/
def firstOccur (t : Str) : Str → Option Nat
  | [] => if t.isPrefixOf ([] : Str) then some 0 else none
  | c :: cs =>
    if t.isPrefixOf (c :: cs) then some 0
    else (firstOccur t cs).map (· + 1)

/-- Model of Python's substring test `t in s`. -/
def isSubOf (t s : Str) : Bool := (firstOccur t s).isSome

/-- Decimal rendering of a natural number (Python `str(n)` / f-string). -/
def natStr (n : Nat) : Str := (toString n).data

/-- Stable insertion of `x` into `l`: `x` goes before the first element `y`
with `le x y`.  Used to model Python's stable `sort`. -/
def insBefore (le : α → α → Bool) (x : α) : List α → List α
  | [] => [x]
  | y :: ys => if le x y then x :: y :: ys else y :: insBefore le x ys

/-- Stable insertion sort, modelling Python's stable `sorted`/`list.sort`. -/
def sortStable (le : α → α → Bool) : List α → List α
  | [] => []
  | x :: xs => insBefore le x (sortStable le xs)

/-- Python dict assignment `d[k] = v` on an association list: update in place
if the key is present, else append at the end. -/
def dictInsert (k : Str) (v : β) : List (Str × β) → List (Str × β)
  | [] => [(k, v)]
  | (k', v') :: rest =>
    if k' = k then (k, v) :: rest else (k', v') :: dictInsert k v rest

/-- Python dict `d.pop(k)` / `del d[k]` on an association list. -/
def dictPop (k : Str) : List (Str × β) → List (Str × β)
  | [] => []
  | (k', v') :: rest =>
    if k' = k then rest else (k', v') :: dictPop k rest

/-- Python set `s.add(x)` modelled on a list: only membership is ever
consulted, so duplicates are simply not added. -/
def setAdd (x : Str) (l : List Str) : List Str :=
  if x ∈ l then l else l ++ [x]

/-- `_resolve_search` (main.py): the multiple-match message, listing the
narrowed total and up to 15 candidate display names. -/
def multiMatchMsg (total : Nat) (names : List Str) : Str :=
  str "找到" ++ natStr total ++ str "个匹配结果，请精确输入:\n"
    ++ List.intercalate (str "\n") (names.map (fun n => str "  " ++ n))

/-- `_resolve_search` (main.py), multiple-result branch: `narrowed` is the
list bound to `exact` in the source. -/
def resolveMulti {α : Type} (results narrowed : List α) (nameFn : α → Str) :
    Option α × Option Str :=
  match narrowed with
  | [e] => (some e, none)
  | _ =>
    let display := if narrowed.isEmpty then results.take 15 else narrowed.take 15
    let total := if narrowed.isEmpty then results.length else narrowed.length
    (none, some (multiMatchMsg total (display.map nameFn)))

/-- `_resolve_search` (main.py): resolve a result list to a single match or a
disambiguation / not-found message. -/
def resolveSearch {α : Type} (results : List α) (query : Str)
    (nameFn : α → Str) (notFoundMsg : Str) : Option α × Option Str :=
  match results with
  | [] => (none, some notFoundMsg)
  | [r] => (some r, none)
  | _ =>
    resolveMulti results
      (results.filter fun r => isSubOf (lower query) (lower (nameFn r))) nameFn

/-! ## Data model: catalog records and the alias store -/

/-- Item record (`items_db.json` entries); only the fields the core reads. -/
structure Item where
  name_cn : Str
  name_en : Str
  tags : Str
  hidden_tags : Str
  heroes : Str
  size : Str
  starting_tier : Str
deriving DecidableEq

/-- Monster record (`monsters_db.json` values).  `name_zh` is optional because
the source reads it with two different dict defaults (`key` and `""`). -/
structure Monster where
  name_zh : Option Str
  name : Str
deriving DecidableEq

/-- Skill record (`skills_db.json` entries). -/
structure Skill where
  name_cn : Str
  name_en : Str
deriving DecidableEq

/-- Event record (`event_detail.json` entries). -/
structure Event where
  name : Str
  name_en : Str
deriving DecidableEq

/-- The seven per-category alias maps (`self.aliases`), each a Python dict
modelled as an insertion-ordered association list. -/
structure Aliases where
  hero : List (Str × Str)
  item : List (Str × Str)
  monster : List (Str × Str)
  skill : List (Str × Str)
  tag : List (Str × Str)
  tier : List (Str × Str)
  size : List (Str × Str)
deriving DecidableEq

/-- `ALIAS_CATEGORIES` (main.py). -/
inductive AliasCat
  | hero | item | monster | skill | tag | tier | size
deriving DecidableEq

def getAliasMap (al : Aliases) : AliasCat → List (Str × Str)
  | .hero => al.hero
  | .item => al.item
  | .monster => al.monster
  | .skill => al.skill
  | .tag => al.tag
  | .tier => al.tier
  | .size => al.size

def setAliasMap (al : Aliases) : AliasCat → List (Str × Str) → Aliases
  | .hero, m => { al with hero := m }
  | .item, m => { al with item := m }
  | .monster, m => { al with monster := m }
  | .skill, m => { al with skill := m }
  | .tag, m => { al with tag := m }
  | .tier, m => { al with tier := m }
  | .size, m => { al with size := m }

/-- The loaded catalog plus the alias store (the plugin state the core reads). -/
structure BazaarState where
  items : List Item
  monsters : List (Str × Monster)
  skills : List Skill
  events : List Event
  aliases : Aliases
deriving DecidableEq

/-- `TIER_MAP` (main.py), in dict-literal order. -/
def tierMap : List (Str × Str) :=
  [(str "bronze", str "Bronze"), (str "silver", str "Silver"),
   (str "gold", str "Gold"), (str "diamond", str "Diamond"),
   (str "铜", str "Bronze"), (str "青铜", str "Bronze"),
   (str "银", str "Silver"), (str "白银", str "Silver"),
   (str "金", str "Gold"), (str "黄金", str "Gold"),
   (str "钻石", str "Diamond"), (str "钻", str "Diamond")]

/-- `tier_cn_to_en` (local table in `_build_vocab`). -/
def tierCnToEn : List (Str × Str) :=
  [(str "青铜", str "Bronze"), (str "白银", str "Silver"),
   (str "黄金", str "Gold"), (str "钻石", str "Diamond"),
   (str "传奇", str "Legendary")]

/-! ## `_build_vocab`: the vocabulary index and the entity-name set -/

/-- A vocabulary map entry value: `(facet, canonical value)`. -/
abbrev VocabMap := List (Str × (Str × Str))

/-- First fragment of `s` before separator `sep` (Python `s.split(sep)[0]`). -/
def takeBeforeSep (sep : Str) (s : Str) : Str :=
  match firstOccur sep s with
  | some i => s.take i
  | none => s

/-- One guarded vocabulary insertion: `if p and len(p) >= 2: vocab[p.lower()] = (facet, p)`. -/
def addVocabEntry (facet : Str) (vocab : VocabMap) (p : Str) : VocabMap :=
  if p ≠ [] ∧ 2 ≤ p.length then dictInsert (lower p) (facet, p) vocab else vocab

/-- The hero fragments of an item's `heroes` field: split on `/`, strip, and
keep only the part before a `" | "` separator. -/
def heroParts (h : Str) : List Str :=
  (splitChar '/' h).map fun p =>
    let p := trim p
    if isSubOf (str " | ") p then trim (takeBeforeSep (str " | ") p) else p

/-- The tag fragments of a `tags` / `hidden_tags` field: split on `|`, strip,
split each on `/`, strip. -/
def tagParts (tv : Str) : List Str :=
  ((splitChar '|' tv).map fun t => (splitChar '/' (trim t)).map trim).flatten

/-- Vocabulary contributions of a single item record, in source order
(heroes, size, tags, hidden_tags). -/
def itemVocab (vocab : VocabMap) (it : Item) : VocabMap :=
  let vocab := (heroParts it.heroes).foldl (addVocabEntry (str "hero")) vocab
  let vocab := ((splitChar '/' it.size).map trim).foldl (addVocabEntry (str "size")) vocab
  let vocab := (tagParts it.tags).foldl (addVocabEntry (str "tag")) vocab
  (tagParts it.hidden_tags).foldl (addVocabEntry (str "tag")) vocab

/-- Alias contributions: categories in `ALIAS_CATEGORIES` order with
item/monster/skill skipped; no length guard. -/
def aliasVocab (al : Aliases) (vocab : VocabMap) : VocabMap :=
  let ins := fun (facet : Str) (v : VocabMap) (p : Str × Str) =>
    dictInsert (lower p.1) (facet, p.2) v
  let vocab := al.hero.foldl (ins (str "hero")) vocab
  let vocab := al.tag.foldl (ins (str "tag")) vocab
  let vocab := al.tier.foldl (ins (str "tier")) vocab
  al.size.foldl (ins (str "size")) vocab

/-- `TIER_MAP` contributions (`if len(k) >= 2`). -/
def tierMapVocab (vocab : VocabMap) : VocabMap :=
  tierMap.foldl
    (fun v p => if 2 ≤ p.1.length then dictInsert p.1 (str "tier", p.2) v else v)
    vocab

/-- `tier_cn_to_en` contributions: `vocab[cn]` then `vocab[en.lower()]`. -/
def tierCnVocab (vocab : VocabMap) : VocabMap :=
  tierCnToEn.foldl
    (fun v p => dictInsert (lower p.2) (str "tier", p.2)
      (dictInsert p.1 (str "tier", p.2) v))
    vocab

/-- `_build_vocab` (main.py), vocabulary-map part. -/
def buildVocabMap (items : List Item) (al : Aliases) : VocabMap :=
  tierCnVocab (tierMapVocab (aliasVocab al (items.foldl itemVocab [])))

/-- Comparison used for `_vocab_sorted`: descending length, stable. -/
def lenDescLe (a b : Str) : Bool := decide (b.length ≤ a.length)

/-- One guarded name-set insertion of `_build_vocab`:
`n = n.strip(); if n: names.add(n.lower())`. -/
def addNameIf (names : List Str) (n : Str) : List Str :=
  if trim n ≠ [] then setAdd (lower (trim n)) names else names

/-- `_build_vocab` (main.py), entity-name-set part.  A Python `set` of which
only membership is consulted, modelled as a duplicate-free list. -/
def entityNames (st : BazaarState) : List Str :=
  let names := st.items.foldl (fun ns it => addNameIf (addNameIf ns it.name_cn) it.name_en) []
  let names := st.monsters.foldl
    (fun ns km =>
      addNameIf (addNameIf (setAdd (lower km.1) ns) (km.2.name_zh.getD [])) km.2.name)
    names
  let names := st.skills.foldl (fun ns sk => addNameIf (addNameIf ns sk.name_cn) sk.name_en) names
  st.events.foldl (fun ns ev => addNameIf (addNameIf ns ev.name) ev.name_en) names

/-- The rebuilt vocabulary snapshot: `_vocab`, `_vocab_sorted`, `_entity_names`. -/
structure Vocab where
  map : VocabMap
  sorted : List Str
  names : List Str
deriving DecidableEq

/-- `_build_vocab` (main.py): the full rebuilt snapshot for a state. -/
def stateVocab (st : BazaarState) : Vocab :=
  let m := buildVocabMap st.items st.aliases
  { map := m, sorted := sortStable lenDescLe (m.map Prod.fst), names := entityNames st }

/-! ## Alias store operations -/

/-- First alias of `m` whose lowered surface form equals `ql` (one loop of
`_resolve_alias`). -/
def findAliasIn (ql : Str) (m : List (Str × Str)) : Option Str :=
  m.findSome? fun p => if ql = lower p.1 then some p.2 else none

/-- The lookup chain of `_resolve_alias`: item, monster and skill alias maps
first, then hero aliases; the first match wins. -/
def resolveAliasLookup (al : Aliases) (ql : Str) : Option Str :=
  match findAliasIn ql al.item with
  | some t => some t
  | none =>
    match findAliasIn ql al.monster with
    | some t => some t
    | none =>
      match findAliasIn ql al.skill with
      | some t => some t
      | none => findAliasIn ql al.hero

/-- `_resolve_alias` (main.py): first whole-string case-insensitive alias
match wins, else the trimmed query is returned. -/
def resolveAlias (al : Aliases) (query : Str) : Str :=
  (resolveAliasLookup al (lower (trim query))).getD (trim query)

/-- `cmd_alias` add action (main.py): `self.aliases[cat][alias] = target`. -/
def addAlias (c : AliasCat) (a t : Str) (al : Aliases) : Aliases :=
  setAliasMap al c (dictInsert a t (getAliasMap al c))

/-- `cmd_alias` delete action (main.py): pop only when the alias is present. -/
def deleteAlias (c : AliasCat) (a : Str) (al : Aliases) : Aliases :=
  if (getAliasMap al c).any (fun p => decide (p.1 = a)) then
    setAliasMap al c (dictPop a (getAliasMap al c))
  else al

/-- The all-empty alias store. -/
def alEmpty : Aliases := ⟨[], [], [], [], [], [], []⟩

/-! ## `_is_entity_name` and `_smart_tokenize` -/

/-- `_is_entity_name` (main.py): the case-folded text is a known name, or
(when at least 2 characters) is contained in a known name. -/
def isEntityName (names : List Str) (text : Str) : Bool :=
  let tl := lower text
  if tl ∈ names then true
  else names.any fun n => decide (2 ≤ tl.length) && isSubOf tl n

/-- Does the token contain a CJK character (`'一' <= c <= '鿿'`)? -/
def hasCJK (t : Str) : Bool :=
  t.any fun c => decide (0x4e00 ≤ c.toNat) && decide (c.toNat ≤ 0x9fff)

/-- First vocabulary term that is a prefix of the remaining text (the first
inner loop of `_smart_tokenize`'s decomposition). -/
def findPrefixTerm (vs : List Str) (rem : Str) : Option Str :=
  vs.find? fun term => term.isPrefixOf rem

/-- First vocabulary term occurring at a positive index in the remaining text
(the second inner loop: `idx = remaining.find(term); if idx > 0`). -/
def findInsideTerm (vs : List Str) (rem : Str) : Option (Nat × Str) :=
  vs.findSome? fun term =>
    match firstOccur term rem with
    | some idx => if 0 < idx then some (idx, term) else none
    | none => none

/-- One iteration of `_smart_tokenize`'s greedy decomposition loop: the tokens
emitted and the remaining text afterwards. -/
def decomposeStep (vs : List Str) (rem : Str) : List Str × Str :=
  match findPrefixTerm vs rem with
  | some term => ([term], rem.drop term.length)
  | none =>
    match findInsideTerm vs rem with
    | some (idx, term) => ([rem.take idx, term], rem.drop (idx + term.length))
    | none => ([rem], [])

/-- The decomposition `while` loop.  Fuel bounds the iteration count; with
`|rem| + 1` fuel it reproduces the Python loop exactly whenever every
vocabulary term is non-empty (each step then consumes ≥ 1 character; with an
empty term the Python loop does not terminate, and the model cuts off). -/
def decomposeLoop : Nat → List Str → Str → List Str
  | 0, _, _ => []
  | fuel + 1, vs, rem =>
    if rem = [] then []
    else
      let (toks, rem2) := decomposeStep vs rem
      toks ++ decomposeLoop fuel vs rem2

/-- `_smart_tokenize` (main.py). -/
def smartTokenize (v : Vocab) (query : Str) : List Str :=
  if isEntityName v.names query then [query]
  else
    (splitWs query).foldl
      (fun acc token =>
        if token.any (fun c => decide (c = ':')) then acc ++ [token]
        else if isEntityName v.names token then acc ++ [token]
        else if hasCJK token && decide (4 ≤ token.length) then
          acc ++ decomposeLoop (token.length + 1) v.sorted (lower token)
        else acc ++ [token])
      []

/-! ## `_parse_search_conditions` -/

/-- The parsed condition set (`conditions` dict in the source). -/
structure Conditions where
  keyword : Str
  tags : List Str
  tiers : List Str
  heroes : List Str
  sizes : List Str
deriving DecidableEq

/-- Parse-loop accumulator: the four facet lists plus the `keywords` list. -/
structure ParseAcc where
  tags : List Str
  tiers : List Str
  heroes : List Str
  sizes : List Str
  keywords : List Str
deriving DecidableEq

/-- Tier normalization: `TIER_MAP.get(value.lower(), value.capitalize())`. -/
def tierNormalize (v : Str) : Str :=
  (tierMap.lookup (lower v)).getD (capitalizePy v)

/-- Python `":" in part`. -/
def hasColon (part : Str) : Bool := part.any fun c => decide (c = ':')

/-- Python `part.split(":", 1)`: fragment before the first `':'` and the rest. -/
def splitColonFirst (part : Str) : Str × Str :=
  (part.takeWhile (fun c => decide (c ≠ ':')),
   (part.dropWhile (fun c => decide (c ≠ ':'))).drop 1)

/-- What the parse loop does with one token (each constructor is one branch
of the loop body in `_parse_search_conditions`). -/
inductive FacetAct
  | addTag (v : Str)
  | addTier (v : Str)
  | addHero (v : Str)
  | addSize (v : Str)
  | addKw (v : Str)
  | skip
deriving DecidableEq

/-- Branch selection for a token containing `':'`: recognized facet keys in
source order (`tag`/`标签`, `tier`/`品质`, `hero`/`英雄`, `size`/`尺寸`),
else the whole token becomes keyword material. -/
def classifyColon (part : Str) : FacetAct :=
  if lower (splitColonFirst part).1 = str "tag"
      ∨ lower (splitColonFirst part).1 = str "标签" then
    .addTag (splitColonFirst part).2
  else if lower (splitColonFirst part).1 = str "tier"
      ∨ lower (splitColonFirst part).1 = str "品质" then
    .addTier (tierNormalize (splitColonFirst part).2)
  else if lower (splitColonFirst part).1 = str "hero"
      ∨ lower (splitColonFirst part).1 = str "英雄" then
    .addHero (splitColonFirst part).2
  else if lower (splitColonFirst part).1 = str "size"
      ∨ lower (splitColonFirst part).1 = str "尺寸" then
    .addSize (splitColonFirst part).2
  else .addKw part

/-- Branch selection for a whole-token vocabulary hit, in source order
(hero, tier, tag, size; any other facet value is silently dropped). -/
def classifyVocabHit (hit : Str × Str) : FacetAct :=
  if hit.1 = str "hero" then .addHero hit.2
  else if hit.1 = str "tier" then .addTier hit.2
  else if hit.1 = str "tag" then .addTag hit.2
  else if hit.1 = str "size" then .addSize hit.2
  else .skip

/-- Branch selection of the parse-loop body, in source order. -/
def classifyToken (vocab : VocabMap) (part : Str) : FacetAct :=
  if trim (lower part) = [] then .skip
  else if hasColon part then classifyColon part
  else
    match vocab.lookup (trim (lower part)) with
    | some hit => classifyVocabHit hit
    | none => .addKw part

/-- Apply one branch's effect to the accumulator. -/
def applyAct (acc : ParseAcc) : FacetAct → ParseAcc
  | .addTag v => { acc with tags := acc.tags ++ [v] }
  | .addTier v => { acc with tiers := acc.tiers ++ [v] }
  | .addHero v => { acc with heroes := acc.heroes ++ [v] }
  | .addSize v => { acc with sizes := acc.sizes ++ [v] }
  | .addKw v => { acc with keywords := acc.keywords ++ [v] }
  | .skip => acc

/-- One iteration of the parse loop. -/
def parseToken (vocab : VocabMap) (acc : ParseAcc) (part : Str) : ParseAcc :=
  applyAct acc (classifyToken vocab part)

/-- The parse loop over a token list. -/
def parseTokens (vocab : VocabMap) (acc : ParseAcc) (tokens : List Str) : ParseAcc :=
  tokens.foldl (parseToken vocab) acc

/-- `_parse_search_conditions` (main.py). -/
def parseConditions (v : Vocab) (query : Str) : Conditions :=
  let acc := parseTokens v.map ⟨[], [], [], [], []⟩ (smartTokenize v query)
  ⟨List.intercalate (str " ") acc.keywords, acc.tags, acc.tiers, acc.heroes, acc.sizes⟩

/-! ## `_filter_items` -/

/-- `_clean_tier` (main.py): `raw.split("/")[0].strip().split(" ")[0].strip()`. -/
def cleanTier (raw : Str) : Str :=
  if raw = [] then []
  else
    trim (List.takeWhile (fun c => decide (c ≠ ' '))
      (trim (List.takeWhile (fun c => decide (c ≠ '/')) raw)))

/-- The keyword-searchable text of an item: space-joined name and facet
fields, lowered. -/
def itemSearchable (it : Item) : Str :=
  lower (List.intercalate (str " ")
    [it.name_cn, it.name_en, it.tags, it.hidden_tags, it.heroes, it.size])

/-- `_filter_items`, tags stage: all tag values must occur in the lowered
`tags + " " + hidden_tags` text. -/
def filterByTags (c : Conditions) (l : List Item) : List Item :=
  if c.tags ≠ [] then
    l.filter (fun it => c.tags.all fun t =>
      isSubOf (lower t) (lower (it.tags ++ ' ' :: it.hidden_tags)))
  else l

/-- `_filter_items`, tiers stage: the cleaned starting tier must be a member
of the tier list. -/
def filterByTiers (c : Conditions) (l : List Item) : List Item :=
  if c.tiers ≠ [] then
    l.filter (fun it => decide (cleanTier it.starting_tier ∈ c.tiers))
  else l

/-- `_filter_items`, heroes stage: all hero values must occur in the lowered
`heroes` field. -/
def filterByHeroes (c : Conditions) (l : List Item) : List Item :=
  if c.heroes ≠ [] then
    l.filter (fun it => c.heroes.all fun h => isSubOf (lower h) (lower it.heroes))
  else l

/-- `_filter_items`, sizes stage: some size value must occur in the lowered
`size` field. -/
def filterBySizes (c : Conditions) (l : List Item) : List Item :=
  if c.sizes ≠ [] then
    l.filter (fun it => c.sizes.any fun s => isSubOf (lower s) (lower it.size))
  else l

/-- `_filter_items`, keyword stage: substring match against the searchable
text. -/
def filterByKw (c : Conditions) (l : List Item) : List Item :=
  if c.keyword ≠ [] then
    l.filter (fun it => isSubOf (lower c.keyword) (itemSearchable it))
  else l

/-- `_filter_items` (main.py): sequential facet filters then the keyword
filter. -/
def filterItems (items : List Item) (c : Conditions) : List Item :=
  filterByKw c (filterBySizes c (filterByHeroes c (filterByTiers c
    (filterByTags c items))))

/-! ## `_edit_distance` and `_fuzzy_suggest` -/

/-- Inner row construction of the `_edit_distance` DP: given the previous
row (`p0 :: p1 :: ...`) and the last value appended to the current row,
produce the rest of the current row. -/
def levAux (c1 : Char) : List Char → List Nat → Nat → List Nat
  | [], _, last => [last]
  | _ :: _, [], last => [last]
  | _ :: _, [_], last => [last]
  | c2 :: cs, p0 :: p1 :: ps, last =>
    last :: levAux c1 cs (p1 :: ps)
      (min (p1 + 1) (min (last + 1) (p0 + (if c1 = c2 then 0 else 1))))

/-- Outer loop of the `_edit_distance` DP over the characters of `s1`. -/
def levRows : List Char → List Char → List Nat → List Nat
  | [], _, prev => prev
  | c1 :: cs, s2, prev => levRows cs s2 (levAux c1 s2 prev (prev.headD 0 + 1))

/-- `_edit_distance` body, assuming `len(s1) >= len(s2)`. -/
def editDistanceCore (s1 s2 : Str) : Nat :=
  if s2.length = 0 then s1.length
  else (levRows s1 s2 (List.range (s2.length + 1))).getLastD 0

/-- `_edit_distance` (main.py): Levenshtein distance with the shorter string
second. -/
def editDistance (s1 s2 : Str) : Nat :=
  if s1.length < s2.length then editDistanceCore s2 s1 else editDistanceCore s1 s2

/-- The `(cn, en, display)` candidate entries `_fuzzy_suggest` scans:
items, monsters, skills, events, in source order. -/
def fuzzyEntries (st : BazaarState) : List (Str × Str × Str) :=
  let disp := fun (emoji cn en : Str) => emoji ++ cn ++ str "(" ++ en ++ str ")"
  st.items.map (fun it => (it.name_cn, it.name_en, disp (str "📦 ") it.name_cn it.name_en))
    ++ st.monsters.map (fun km =>
        let cn := km.2.name_zh.getD km.1
        (cn, km.2.name, disp (str "🐉 ") cn km.2.name))
    ++ st.skills.map (fun sk => (sk.name_cn, sk.name_en, disp (str "⚡ ") sk.name_cn sk.name_en))
    ++ st.events.map (fun ev => (ev.name, ev.name_en, disp (str "🎲 ") ev.name ev.name_en))

/-- Python `abs(len1 - len2)` on naturals. -/
def natDiff (a b : Nat) : Nat := if a ≤ b then b - a else a - b

/-- The inner `for name in [cn, en]` loop of `_fuzzy_suggest`: the best
distance over the candidate's names, `none` when no name qualifies. -/
def bestDistFold (kw : Str) (threshold : Nat) : List Str → Option Nat → Option Nat
  | [], best => best
  | name :: rest, best =>
    if name = [] then bestDistFold kw threshold rest best
    else if isSubOf kw (lower name) || isSubOf (lower name) kw then some 0
    else if threshold < natDiff (lower name).length kw.length then
      bestDistFold kw threshold rest best
    else if editDistance kw (lower name) ≤ threshold then
      match best with
      | none => bestDistFold kw threshold rest (some (editDistance kw (lower name)))
      | some b =>
        bestDistFold kw threshold rest
          (some (if editDistance kw (lower name) < b then editDistance kw (lower name) else b))
    else bestDistFold kw threshold rest best

/-- The `(best_dist, display)` candidate list of `_fuzzy_suggest`. -/
def mkCandidates (kw : Str) (threshold : Nat) : List (Str × Str × Str) → List (Nat × Str)
  | [] => []
  | (cn, en, disp) :: rest =>
    match bestDistFold kw threshold [cn, en] none with
    | some d => (d, disp) :: mkCandidates kw threshold rest
    | none => mkCandidates kw threshold rest

/-- `_fuzzy_suggest` (main.py): `kw = query.lower()`, per-candidate threshold
`max(1, len(kw) // 3)`, candidates sorted ascending by distance (stable) and
truncated to `limit`. -/
def fuzzySuggest (st : BazaarState) (query : Str) (limit : Nat) : List Str :=
  if (lower query).length < 2 then []
  else
    ((sortStable (fun a b => decide (a.1 ≤ b.1))
        (mkCandidates (lower query) (max 1 ((lower query).length / 3))
          (fuzzyEntries st))).take limit).map Prod.snd

/-! ## Concrete states used by witnesses and counterexamples -/

/-- A state with empty catalogs and no aliases. -/
def stEmpty : BazaarState := ⟨[], [], [], [], alEmpty⟩

/-- An item whose Chinese name is the one-character `剑` and whose tag
vocabulary contributes `灼烧`. -/
def itemC2 : Item := ⟨str "剑", [], str "灼烧", [], [], [], []⟩

/-- State for the C2 counterexample. -/
def stC2 : BazaarState := ⟨[itemC2], [], [], [], alEmpty⟩

/-- An alias store holding an empty surface form (as an externally edited
alias file may: `_load_aliases` performs no validation). -/
def stBadAlias : BazaarState :=
  ⟨[], [], [], [], { alEmpty with hero := [([], str "X")] }⟩

/-- An alias store in which `(hero, "x")` is already bound. -/
def alPre : Aliases := { alEmpty with hero := [(str "x", str "Old")] }

/-- State for the C8 counterexample. -/
def stPre : BazaarState := ⟨[], [], [], [], alPre⟩

/-- An item of size `Small` (C4 counterexample). -/
def itemSmall : Item := ⟨str "甲", str "A", [], [], [], str "Small", []⟩

/-- A condition set with two values in the `sizes` facet. -/
def condsTwoSizes : Conditions := ⟨[], [], [], [], [str "Small", str "Large"]⟩

/-- A catalog with a single item named `Bronze` (C6 witness). -/
def stBronze : BazaarState :=
  ⟨[⟨[], str "Bronze", [], [], [], [], []⟩], [], [], [], alEmpty⟩
/-- C1: `resolve_entity` on an empty result list returns the not-found
message; on a singleton it returns that element; on more than one result it
first narrows to candidates whose display name contains the query
(case-insensitively), returns a unique narrowed candidate, and otherwise
returns no match plus a message listing at most 15 candidate names taken from
the narrowed subset when non-empty and from the full result list otherwise. -/
theorem resolveSearch_spec {α : Type} (results : List α) (query : Str)
    (nameFn : α → Str) (nf : Str) :
    (results = [] → resolveSearch results query nameFn nf = (none, some nf)) ∧
    (∀ r, results = [r] → resolveSearch results query nameFn nf = (some r, none)) ∧
    (2 ≤ results.length →
      ∀ narrowed, narrowed = results.filter
          (fun r => isSubOf (lower query) (lower (nameFn r))) →
        ((∀ e, narrowed = [e] →
            resolveSearch results query nameFn nf = (some e, none)) ∧
         (narrowed.length ≠ 1 →
           ∃ shown, shown = (if narrowed.isEmpty then results else narrowed).take 15 ∧
             shown.length ≤ 15 ∧
             resolveSearch results query nameFn nf =
               (none, some (multiMatchMsg
                 (if narrowed.isEmpty then results.length else narrowed.length)
                 (shown.map nameFn)))))) := by
  have hmulti : ∀ (res nar : List α), nar.length ≠ 1 →
      resolveMulti res nar nameFn =
        (none, some (multiMatchMsg (if nar.isEmpty then res.length else nar.length)
          (List.map nameFn (List.take 15 (if nar.isEmpty then res else nar))))) := by
    intro res nar hne
    match nar with
    | [] => simp [resolveMulti, List.take]
    | [e] => exact absurd rfl hne
    | a :: b :: l => simp [resolveMulti, List.isEmpty]
  refine ⟨?_, ?_, ?_⟩
  · rintro rfl; rfl
  · rintro r rfl; rfl
  · intro hlen narrowed hnar
    match results, hlen with
    | a :: b :: rest, _ =>
      have hres : resolveSearch (a :: b :: rest) query nameFn nf =
          resolveMulti (a :: b :: rest) narrowed nameFn := by
        rw [hnar]; rfl
      constructor
      · rintro e rfl
        rw [hres]; rfl
      · intro hne
        refine ⟨(if narrowed.isEmpty then (a :: b :: rest) else narrowed).take 15,
          rfl, ?_, ?_⟩
        · by_cases hcase : narrowed.isEmpty <;>
            simp [hcase, List.length_take]
        · rw [hres, hmulti _ _ hne]

/-- Witness for C1 at concrete inputs: the empty, singleton, and
multi-match-message cases of `resolveSearch_spec`. -/
theorem resolveSearch_spec_witness :
    resolveSearch ([] : List Str) (str "x") id (str "nf") = (none, some (str "nf")) ∧
    resolveSearch [str "ab"] (str "x") id (str "nf") = (some (str "ab"), none) ∧
    resolveSearch [str "ab", str "cd", str "ax"] (str "a") id (str "nf") =
      (none, some (multiMatchMsg 2 [str "ab", str "ax"])) := by
  refine ⟨(resolveSearch_spec ([] : List Str) (str "x") id (str "nf")).1 rfl,
    (resolveSearch_spec [str "ab"] (str "x") id (str "nf")).2.1 _ rfl, ?_⟩
  have h := ((resolveSearch_spec [str "ab", str "cd", str "ax"] (str "a") id
    (str "nf")).2.2 (by decide) _ rfl).2 (by decide)
  obtain ⟨shown, hs, -, hres⟩ := h
  rw [hres, hs]
  rfl

/-! ## Association-list and alias-store lemmas -/

theorem dictInsert_fresh {β : Type} (k : Str) (v : β) (m : List (Str × β))
    (h : ∀ p ∈ m, p.1 ≠ k) : dictInsert k v m = m ++ [(k, v)] := by
  induction m with
  | nil => rfl
  | cons p rest ih =>
    obtain ⟨k', v'⟩ := p
    simp only [dictInsert]
    rw [if_neg (h (k', v') (by simp))]
    rw [ih fun p hp => h p (by simp [hp])]
    simp

theorem dictPop_append_self {β : Type} (k : Str) (v : β) (m : List (Str × β))
    (h : ∀ p ∈ m, p.1 ≠ k) : dictPop k (m ++ [(k, v)]) = m := by
  induction m with
  | nil => simp [dictPop]
  | cons p rest ih =>
    obtain ⟨k', v'⟩ := p
    simp only [List.cons_append, dictPop]
    rw [if_neg (h (k', v') (by simp))]
    exact congrArg (List.cons (k', v')) (ih fun p hp => h p (by simp [hp]))

theorem dictInsert_any_self {β : Type} (k : Str) (v : β) (m : List (Str × β)) :
    ((dictInsert k v m).any fun p => decide (p.1 = k)) = true := by
  induction m with
  | nil => simp [dictInsert]
  | cons p rest ih =>
    obtain ⟨k', v'⟩ := p
    simp only [dictInsert]
    split
    · simp
    · simp [ih]

theorem getAliasMap_setAliasMap (al : Aliases) (c : AliasCat) (m : List (Str × Str)) :
    getAliasMap (setAliasMap al c m) c = m := by
  cases c <;> rfl

theorem setAliasMap_setAliasMap (al : Aliases) (c : AliasCat) (m1 m2 : List (Str × Str)) :
    setAliasMap (setAliasMap al c m1) c m2 = setAliasMap al c m2 := by
  cases c <;> rfl

theorem setAliasMap_getAliasMap (al : Aliases) (c : AliasCat) :
    setAliasMap al c (getAliasMap al c) = al := by
  cases c <;> rfl

theorem store_add_delete (c : AliasCat) (a t : Str) (al : Aliases)
    (h : ∀ p ∈ getAliasMap al c, p.1 ≠ a) :
    deleteAlias c a (addAlias c a t al) = al := by
  unfold addAlias deleteAlias
  rw [getAliasMap_setAliasMap]
  rw [dictInsert_any_self]
  rw [if_pos rfl]
  rw [setAliasMap_setAliasMap, dictInsert_fresh _ _ _ h,
    dictPop_append_self _ _ _ h, setAliasMap_getAliasMap]

/-- C8 (amended): when the `(category, alias)` pair is not already bound,
`add` followed by `delete` for that pair restores the rebuilt vocabulary
snapshot (`_vocab`, `_vocab_sorted`, `_entity_names`) exactly. -/
theorem stateVocab_add_delete (st : BazaarState) (c : AliasCat) (a t : Str)
    (hfresh : ∀ p ∈ getAliasMap st.aliases c, p.1 ≠ a) :
    stateVocab { st with aliases := deleteAlias c a (addAlias c a t st.aliases) }
      = stateVocab st := by
  rw [store_add_delete c a t st.aliases hfresh]

/-- Witness for C8 at a concrete input: a fresh hero alias added then
deleted on the empty store. -/
theorem stateVocab_add_delete_witness :
    stateVocab { stEmpty with
      aliases := deleteAlias .hero (str "猪猪")
        (addAlias .hero (str "猪猪") (str "Pygmalien") stEmpty.aliases) }
      = stateVocab stEmpty :=
  stateVocab_add_delete stEmpty .hero (str "猪猪") (str "Pygmalien") (by decide)

/-- C8 counterexample: when `(hero, "x")` is already bound, `add` then
`delete` loses the pre-existing binding, so the rebuilt vocabulary differs
from its pre-add state. -/
theorem stateVocab_add_delete_cex :
    stateVocab { stPre with
      aliases := deleteAlias .hero (str "x")
        (addAlias .hero (str "x") (str "New") stPre.aliases) }
      ≠ stateVocab stPre := by decide

/-! ## `_resolve_alias` lemmas -/

theorem findAliasIn_none (ql : Str) (m : List (Str × Str))
    (h : ∀ p ∈ m, ql ≠ lower p.1) : findAliasIn ql m = none := by
  induction m with
  | nil => rfl
  | cons p rest ih =>
    simp only [findAliasIn, List.findSome?_cons]
    rw [if_neg (h p (by simp))]
    exact ih fun p hp => h p (by simp [hp])

theorem findAliasIn_insert (a t : Str) (m : List (Str × Str))
    (h : ∀ p ∈ m, lower a ≠ lower p.1) :
    findAliasIn (lower a) (dictInsert a t m) = some t := by
  induction m with
  | nil => simp [dictInsert, findAliasIn, List.findSome?]
  | cons p rest ih =>
    obtain ⟨k', v'⟩ := p
    simp only [dictInsert]
    rw [if_neg fun hk => h (k', v') (by simp) (by rw [hk])]
    simp only [findAliasIn, List.findSome?_cons]
    rw [if_neg (h (k', v') (by simp))]
    exact ih fun p hp => h p (by simp [hp])

/-- C5 (amended): for the categories `_resolve_alias` actually consults
(item, monster, skill, then hero, in that order), a freshly added alias
resolves to its target immediately, case-insensitively, provided no existing
alias in a consulted map collides case-insensitively; and when no alias
matches at all, `_resolve_alias` returns the trimmed query. -/
theorem resolveAlias_after_add (al : Aliases) (c : AliasCat) (a t : Str)
    (hc : c = .item ∨ c = .monster ∨ c = .skill ∨ c = .hero)
    (ha : trim a = a)
    (hfresh : ∀ m ∈ [al.item, al.monster, al.skill, al.hero],
      ∀ p ∈ m, lower a ≠ lower p.1) :
    resolveAlias (addAlias c a t al) a = t ∧
    (∀ q : Str, (∀ m ∈ [al.item, al.monster, al.skill, al.hero],
        ∀ p ∈ m, lower (trim q) ≠ lower p.1) →
      resolveAlias al q = trim q) := by
  have hitem := fun p hp => hfresh al.item (by simp) p hp
  have hmon := fun p hp => hfresh al.monster (by simp) p hp
  have hskill := fun p hp => hfresh al.skill (by simp) p hp
  have hhero := fun p hp => hfresh al.hero (by simp) p hp
  constructor
  · have hlk : resolveAliasLookup (addAlias c a t al) (lower a) = some t := by
      rcases hc with rfl | rfl | rfl | rfl
      · unfold resolveAliasLookup
        rw [show (addAlias .item a t al).item = dictInsert a t al.item from rfl,
          findAliasIn_insert a t al.item hitem]
      · unfold resolveAliasLookup
        rw [show (addAlias .monster a t al).item = al.item from rfl,
          show (addAlias .monster a t al).monster = dictInsert a t al.monster from rfl,
          findAliasIn_none _ _ hitem,
          findAliasIn_insert a t al.monster hmon]
      · unfold resolveAliasLookup
        rw [show (addAlias .skill a t al).item = al.item from rfl,
          show (addAlias .skill a t al).monster = al.monster from rfl,
          show (addAlias .skill a t al).skill = dictInsert a t al.skill from rfl,
          findAliasIn_none _ _ hitem, findAliasIn_none _ _ hmon,
          findAliasIn_insert a t al.skill hskill]
      · unfold resolveAliasLookup
        rw [show (addAlias .hero a t al).item = al.item from rfl,
          show (addAlias .hero a t al).monster = al.monster from rfl,
          show (addAlias .hero a t al).skill = al.skill from rfl,
          show (addAlias .hero a t al).hero = dictInsert a t al.hero from rfl,
          findAliasIn_none _ _ hitem, findAliasIn_none _ _ hmon,
          findAliasIn_none _ _ hskill, findAliasIn_insert a t al.hero hhero]
    unfold resolveAlias
    rw [ha, hlk]
    rfl
  · intro q hq
    have hlk : resolveAliasLookup al (lower (trim q)) = none := by
      unfold resolveAliasLookup
      rw [findAliasIn_none _ _ fun p hp => hq al.item (by simp) p hp,
        findAliasIn_none _ _ fun p hp => hq al.monster (by simp) p hp,
        findAliasIn_none _ _ fun p hp => hq al.skill (by simp) p hp,
        findAliasIn_none _ _ fun p hp => hq al.hero (by simp) p hp]
    unfold resolveAlias
    rw [hlk]
    rfl

/-- Witness for C5 at a concrete input: a hero alias on the empty store. -/
theorem resolveAlias_after_add_witness :
    resolveAlias (addAlias .hero (str "猪猪") (str "Pygmalien") alEmpty) (str "猪猪")
      = str "Pygmalien" :=
  (resolveAlias_after_add alEmpty .hero (str "猪猪") (str "Pygmalien")
    (Or.inr (Or.inr (Or.inr rfl))) (by decide) (by decide)).1

/-- C5 counterexample: an alias added in the `tag` category is never
consulted by `_resolve_alias`, so the claim fails for that category. -/
theorem resolveAlias_c5_cex :
    resolveAlias (addAlias .tag (str "wpn") (str "Weapon") alEmpty) (str "wpn")
      = str "wpn" ∧ str "wpn" ≠ str "Weapon" := by decide

/-! ## Lowercasing and entity-name lemmas -/

theorem lowChar_idem (c : Char) : lowChar (lowChar c) = lowChar c := by
  unfold lowChar
  by_cases h : 65 ≤ c.toNat ∧ c.toNat ≤ 90
  · rw [if_pos h]
    have hv : (Char.ofNat (c.toNat + 32)).toNat = c.toNat + 32 := by
      obtain ⟨h1, h2⟩ := h
      set n := c.toNat with hn
      clear_value n
      interval_cases n <;> decide
    rw [if_neg]
    rw [hv]
    omega
  · rw [if_neg h, if_neg h]

theorem lower_idem (s : Str) : lower (lower s) = lower s := by
  simp only [lower, List.map_map]
  have : lowChar ∘ lowChar = lowChar := by
    funext c
    exact lowChar_idem c
  rw [this]

/-- Everything in a list built only from `setAdd (lower _)` insertions is a
fixed point of `lower`. -/
def AllLowered (l : List Str) : Prop := ∀ x ∈ l, lower x = x

theorem allLowered_setAdd (y : Str) (l : List Str) (hl : AllLowered l) :
    AllLowered (setAdd (lower y) l) := by
  intro x hx
  unfold setAdd at hx
  split at hx
  · exact hl x hx
  · rcases List.mem_append.mp hx with h | h
    · exact hl x h
    · rw [List.mem_singleton.mp h]
      exact lower_idem y

theorem allLowered_addNameIf (l : List Str) (n : Str) (hl : AllLowered l) :
    AllLowered (addNameIf l n) := by
  unfold addNameIf
  split
  · exact allLowered_setAdd (trim n) l hl
  · exact hl

theorem allLowered_foldl {β : Type} (f : List Str → β → List Str)
    (hf : ∀ ns b, AllLowered ns → AllLowered (f ns b)) :
    ∀ (l : List β) (ns : List Str), AllLowered ns → AllLowered (l.foldl f ns) := by
  intro l
  induction l with
  | nil => intro ns h; exact h
  | cons b rest ih => intro ns h; exact ih (f ns b) (hf ns b h)

theorem entityNames_lowered (st : BazaarState) : AllLowered (entityNames st) := by
  unfold entityNames
  apply allLowered_foldl _ (fun ns ev h => allLowered_addNameIf _ _ (allLowered_addNameIf _ _ h))
  apply allLowered_foldl _ (fun ns sk h => allLowered_addNameIf _ _ (allLowered_addNameIf _ _ h))
  apply allLowered_foldl _ (fun ns km h =>
    allLowered_addNameIf _ _ (allLowered_addNameIf _ _ (allLowered_setAdd _ _ h)))
  apply allLowered_foldl _ (fun ns it h => allLowered_addNameIf _ _ (allLowered_addNameIf _ _ h))
  intro x hx
  simp at hx

/-- C2 (amended): whole-name recognition holds in the two directions the code
implements — every known (stored) entity name tokenizes to itself, and more
generally any query whose case-folded form is a known entity name, or has at
least 2 characters and is contained in a known entity name, is returned as a
single token.  (A query that merely contains an entity name may be
decomposed; see the counterexample.) -/
theorem smartTokenize_wholeName (st : BazaarState) :
    (∀ n ∈ (stateVocab st).names, smartTokenize (stateVocab st) n = [n]) ∧
    (∀ q : Str,
      (lower q ∈ (stateVocab st).names ∨
        (2 ≤ q.length ∧ ∃ n ∈ (stateVocab st).names, isSubOf (lower q) n = true)) →
      smartTokenize (stateVocab st) q = [q]) := by
  have hnames : (stateVocab st).names = entityNames st := rfl
  have hent : ∀ q : Str,
      (lower q ∈ (stateVocab st).names ∨
        (2 ≤ q.length ∧ ∃ n ∈ (stateVocab st).names, isSubOf (lower q) n = true)) →
      isEntityName (stateVocab st).names q = true := by
    intro q hq
    unfold isEntityName
    by_cases hmem : lower q ∈ (stateVocab st).names
    · rw [if_pos hmem]
    · rw [if_neg hmem]
      rcases hq with h | ⟨hlen, n, hn, hsub⟩
      · exact absurd h hmem
      · apply List.any_eq_true.mpr
        refine ⟨n, hn, ?_⟩
        have : (lower q).length = q.length := List.length_map _ _
        rw [Bool.and_eq_true, hsub]
        constructor
        · exact decide_eq_true (by omega)
        · rfl
  have htok : ∀ q : Str, isEntityName (stateVocab st).names q = true →
      smartTokenize (stateVocab st) q = [q] := by
    intro q hq
    unfold smartTokenize
    rw [hq]
    rfl
  constructor
  · intro n hn
    apply htok
    apply hent
    left
    rw [hnames] at hn ⊢
    rw [entityNames_lowered st n hn]
    exact hn
  · intro q hq
    exact htok q (hent q hq)

/-- Witness for C2 at a concrete input: the stored name `剑` of `stC2`
tokenizes to itself. -/
theorem smartTokenize_wholeName_witness :
    smartTokenize (stateVocab stC2) (str "剑") = [str "剑"] :=
  (smartTokenize_wholeName stC2).1 (str "剑") (by decide)

/-- C2 counterexample: the query `灼烧剑剑` contains the known entity name
`剑`, yet the tokenizer decomposes it instead of returning it whole. -/
theorem smartTokenize_c2_cex :
    (str "剑") ∈ (stateVocab stC2).names ∧
    isSubOf (str "剑") (lower (str "灼烧剑剑")) = true ∧
    smartTokenize (stateVocab stC2) (str "灼烧剑剑") ≠ [str "灼烧剑剑"] := by
  decide

/-! ## Tokenizer decomposition-loop lemmas (C7) -/

theorem firstOccur_le_length (t : Str) :
    ∀ (s : Str) (i : Nat), firstOccur t s = some i → i ≤ s.length := by
  intro s
  induction s with
  | nil =>
    intro i h
    unfold firstOccur at h
    split at h
    · cases h; exact Nat.le_refl 0
    · cases h
  | cons c cs ih =>
    intro i h
    unfold firstOccur at h
    split at h
    · cases h; exact Nat.zero_le _
    · rcases Option.map_eq_some'.mp h with ⟨j, hj, rfl⟩
      have := ih j hj
      simp only [List.length_cons]
      omega

theorem findInsideTerm_pos (vs : List Str) (rem : Str) (idx : Nat) (term : Str)
    (h : findInsideTerm vs rem = some (idx, term)) :
    0 < idx ∧ firstOccur term rem = some idx := by
  induction vs with
  | nil => cases h
  | cons tm rest ih =>
    simp only [findInsideTerm, List.findSome?_cons] at h
    split at h
    · next b heq =>
      cases h
      split at heq
      · next j hocc =>
        split at heq
        · next hj =>
          cases heq
          exact ⟨hj, hocc⟩
        · cases heq
      · cases heq
    · exact ih (by simpa [findInsideTerm] using h)

/-- C7 (amended): one iteration of the greedy decomposition loop strictly
shortens the remaining text, provided every vocabulary surface form is
non-empty.  (The vocabulary builder does not enforce non-emptiness for
aliases; see the counterexample.) -/
theorem decomposeStep_consumes (vs : List Str) (rem : Str)
    (hrem : rem ≠ []) (hvs : ∀ tm ∈ vs, tm ≠ []) :
    (decomposeStep vs rem).2.length < rem.length := by
  unfold decomposeStep
  cases hfp : findPrefixTerm vs rem with
  | some term =>
    have hmem : term ∈ vs := List.mem_of_find?_eq_some hfp
    have hpre : term.isPrefixOf rem = true := by
      have := List.find?_some hfp
      simpa using this
    have hle : term.length ≤ rem.length :=
      (List.isPrefixOf_iff_prefix.mp hpre).length_le
    have hne : 0 < term.length := List.length_pos.mpr (hvs term hmem)
    have h0 : 0 < rem.length := List.length_pos.mpr hrem
    simp only [List.length_drop]
    omega
  | none =>
    cases hfi : findInsideTerm vs rem with
    | some it =>
      obtain ⟨idx, term⟩ := it
      obtain ⟨hidx, -⟩ := findInsideTerm_pos vs rem idx term hfi
      have h0 : 0 < rem.length := List.length_pos.mpr hrem
      simp only [List.length_drop]
      omega
    | none =>
      simpa using List.length_pos.mpr hrem

/-- Witness for C7 at a concrete input: one step over the vocabulary
`["ab"]` on remaining text `"xaby"`. -/
theorem decomposeStep_consumes_witness :
    (decomposeStep [str "ab"] (str "xaby")).2.length < (str "xaby").length :=
  decomposeStep_consumes [str "ab"] (str "xaby") (by decide) (by decide)

/-- C7 counterexample: an alias store containing an empty surface form (as an
externally edited alias file may) produces a vocabulary for which an
iteration of the loop consumes nothing — the Python loop then never
terminates. -/
theorem decomposeStep_c7_cex :
    ([] : Str) ∈ (stateVocab stBadAlias).sorted ∧
    (decomposeStep (stateVocab stBadAlias).sorted (str "阿阿阿阿")).2 = str "阿阿阿阿" := by
  decide

/-! ## Parse-loop lemmas (C3, C9, C10) -/

theorem mem_dropWhile_of_neg {p : α → Bool} (c : α) (l : List α)
    (hc : c ∈ l) (hp : p c = false) : c ∈ l.dropWhile p := by
  induction l with
  | nil => cases hc
  | cons a rest ih =>
    rw [List.dropWhile_cons]
    split
    · next ha =>
      rcases List.mem_cons.mp hc with rfl | h
      · rw [hp] at ha; cases ha
      · exact ih h
    · exact hc

theorem mem_trim (c : Char) (l : Str) (hc : c ∈ l)
    (hw : c.isWhitespace = false) : c ∈ trim l := by
  unfold trim
  apply List.mem_reverse.mpr
  apply mem_dropWhile_of_neg c _ _ hw
  apply List.mem_reverse.mpr
  exact mem_dropWhile_of_neg c _ hc hw

theorem lower_colon_split (p v : Str) :
    lower (p ++ ':' :: v) = lower p ++ ':' :: lower v := by
  have hcolon : lowChar ':' = ':' := rfl
  simp [lower, hcolon]

theorem trim_lower_colon_ne (p v : Str) : trim (lower (p ++ ':' :: v)) ≠ [] := by
  apply List.ne_nil_of_mem (a := ':')
  apply mem_trim _ _ _ (by decide)
  rw [lower_colon_split]
  simp

theorem hasColon_mid (p v : Str) : hasColon (p ++ ':' :: v) = true := by
  simp [hasColon, List.any_append]

theorem takeWhile_colon_eq (v : Str) :
    ∀ p : Str, (∀ c ∈ p, c ≠ ':') →
      (p ++ ':' :: v).takeWhile (fun c => decide (c ≠ ':')) = p := by
  intro p
  induction p with
  | nil => intro hp; simp [List.takeWhile_cons]
  | cons c cs ih =>
    intro hp
    simp only [List.cons_append, List.takeWhile_cons]
    rw [decide_eq_true (hp c (by simp))]
    rw [ih fun x hx => hp x (by simp [hx])]
    simp

theorem dropWhile_colon_eq (v : Str) :
    ∀ p : Str, (∀ c ∈ p, c ≠ ':') →
      (p ++ ':' :: v).dropWhile (fun c => decide (c ≠ ':')) = ':' :: v := by
  intro p
  induction p with
  | nil => intro hp; simp [List.dropWhile_cons]
  | cons c cs ih =>
    intro hp
    simp only [List.cons_append, List.dropWhile_cons]
    rw [decide_eq_true (hp c (by simp))]
    simp only [if_true]
    exact ih fun x hx => hp x (by simp [hx])

theorem splitColon_eq (p v : Str) (hp : ∀ c ∈ p, c ≠ ':') :
    splitColonFirst (p ++ ':' :: v) = (p, v) := by
  unfold splitColonFirst
  rw [takeWhile_colon_eq v p hp, dropWhile_colon_eq v p hp]
  rfl

theorem classifyToken_colon (vocab : VocabMap) (p v : Str) :
    classifyToken vocab (p ++ ':' :: v) = classifyColon (p ++ ':' :: v) := by
  unfold classifyToken
  rw [if_neg (trim_lower_colon_ne p v), hasColon_mid]
  rfl

theorem classifyColon_eq (p v : Str) (hp : ∀ c ∈ p, c ≠ ':') :
    classifyColon (p ++ ':' :: v) =
      (if lower p = str "tag" ∨ lower p = str "标签" then .addTag v
       else if lower p = str "tier" ∨ lower p = str "品质" then
         .addTier (tierNormalize v)
       else if lower p = str "hero" ∨ lower p = str "英雄" then .addHero v
       else if lower p = str "size" ∨ lower p = str "尺寸" then .addSize v
       else .addKw (p ++ ':' :: v)) := by
  simp only [classifyColon, splitColon_eq p v hp]

theorem parseToken_fields (vocab : VocabMap) (acc : ParseAcc) (part : Str) :
    ∃ s1 s2 s3 s4 s5, parseToken vocab acc part =
      ⟨acc.tags ++ s1, acc.tiers ++ s2, acc.heroes ++ s3,
       acc.sizes ++ s4, acc.keywords ++ s5⟩ := by
  unfold parseToken
  cases classifyToken vocab part with
  | addTag v => exact ⟨[v], [], [], [], [], by simp [applyAct]⟩
  | addTier v => exact ⟨[], [v], [], [], [], by simp [applyAct]⟩
  | addHero v => exact ⟨[], [], [v], [], [], by simp [applyAct]⟩
  | addSize v => exact ⟨[], [], [], [v], [], by simp [applyAct]⟩
  | addKw v => exact ⟨[], [], [], [], [v], by simp [applyAct]⟩
  | skip => exact ⟨[], [], [], [], [], by simp [applyAct]⟩

theorem parseTokens_fields (vocab : VocabMap) :
    ∀ (tokens : List Str) (acc : ParseAcc),
      ∃ s1 s2 s3 s4 s5, parseTokens vocab acc tokens =
        ⟨acc.tags ++ s1, acc.tiers ++ s2, acc.heroes ++ s3,
         acc.sizes ++ s4, acc.keywords ++ s5⟩ := by
  intro tokens
  induction tokens with
  | nil => intro acc; exact ⟨[], [], [], [], [], by simp [parseTokens]⟩
  | cons tok rest ih =>
    intro acc
    obtain ⟨a1, a2, a3, a4, a5, h1⟩ := parseToken_fields vocab acc tok
    obtain ⟨b1, b2, b3, b4, b5, h2⟩ := ih (parseToken vocab acc tok)
    refine ⟨a1 ++ b1, a2 ++ b2, a3 ++ b3, a4 ++ b4, a5 ++ b5, ?_⟩
    have hstep : parseTokens vocab acc (tok :: rest) =
        parseTokens vocab (parseToken vocab acc tok) rest := rfl
    rw [hstep, h2, h1]
    simp

theorem parseTokens_split (vocab : VocabMap) (pre post : List Str)
    (tok : Str) (acc : ParseAcc) :
    parseTokens vocab acc (pre ++ tok :: post) =
      parseTokens vocab (parseToken vocab (parseTokens vocab acc pre) tok) post := by
  simp [parseTokens, List.foldl_append]

theorem lookup_none_of {β : Type} (l : List (Str × β)) (k : Str)
    (h : ∀ q ∈ l, q.1 ≠ k) : l.lookup k = none := by
  induction l with
  | nil => rfl
  | cons q rest ih =>
    obtain ⟨a, b⟩ := q
    have hbeq : (k == a) = false :=
      beq_eq_false_iff_ne.mpr fun he => h (a, b) (by simp) he.symm
    simp only [List.lookup, hbeq]
    exact ih fun q hq => h q (by simp [hq])

/-- C3: a token `p:value` with a recognized facet key (case-folded `tag`/`标签`,
`tier`/`品质`, `hero`/`英雄`, `size`/`尺寸`) contributes the value after the
separator to the corresponding facet list (tier values normalized through the
tier synonym table); and concretely
`parse_conditions("tier:Gold tag:Weapon")` yields `tiers=["Gold"]`,
`tags=["Weapon"]` and an empty keyword. -/
theorem parseConditions_facets (vocab : VocabMap) (acc : ParseAcc)
    (pre post : List Str) (p v : Str) (hp : ∀ c ∈ p, c ≠ ':') :
    ((lower p = str "tag" ∨ lower p = str "标签") →
      v ∈ (parseTokens vocab acc (pre ++ (p ++ ':' :: v) :: post)).tags) ∧
    ((lower p = str "tier" ∨ lower p = str "品质") →
      tierNormalize v ∈ (parseTokens vocab acc (pre ++ (p ++ ':' :: v) :: post)).tiers) ∧
    ((lower p = str "hero" ∨ lower p = str "英雄") →
      v ∈ (parseTokens vocab acc (pre ++ (p ++ ':' :: v) :: post)).heroes) ∧
    ((lower p = str "size" ∨ lower p = str "尺寸") →
      v ∈ (parseTokens vocab acc (pre ++ (p ++ ':' :: v) :: post)).sizes) ∧
    parseConditions (stateVocab stEmpty) (str "tier:Gold tag:Weapon") =
      ⟨[], [str "Weapon"], [str "Gold"], [], []⟩ := by
  refine ⟨?_, ?_, ?_, ?_, by decide⟩
  · intro hfk
    rw [parseTokens_split]
    have hcls : classifyToken vocab (p ++ ':' :: v) = .addTag v := by
      rw [classifyToken_colon, classifyColon_eq p v hp, if_pos hfk]
    have hstep : parseToken vocab (parseTokens vocab acc pre) (p ++ ':' :: v) =
        { parseTokens vocab acc pre with
          tags := (parseTokens vocab acc pre).tags ++ [v] } := by
      unfold parseToken
      rw [hcls]
      rfl
    rw [hstep]
    obtain ⟨s1, s2, s3, s4, s5, hf⟩ := parseTokens_fields vocab post _
    rw [hf]
    simp
  · intro hfk
    rw [parseTokens_split]
    have hne : ¬(lower p = str "tag" ∨ lower p = str "标签") := by
      intro h
      rcases hfk with hfk | hfk <;> rcases h with h | h <;>
        (rw [hfk] at h; exact absurd h (by decide))
    have hcls : classifyToken vocab (p ++ ':' :: v) = .addTier (tierNormalize v) := by
      rw [classifyToken_colon, classifyColon_eq p v hp, if_neg hne, if_pos hfk]
    have hstep : parseToken vocab (parseTokens vocab acc pre) (p ++ ':' :: v) =
        { parseTokens vocab acc pre with
          tiers := (parseTokens vocab acc pre).tiers ++ [tierNormalize v] } := by
      unfold parseToken
      rw [hcls]
      rfl
    rw [hstep]
    obtain ⟨s1, s2, s3, s4, s5, hf⟩ := parseTokens_fields vocab post _
    rw [hf]
    simp
  · intro hfk
    rw [parseTokens_split]
    have hne1 : ¬(lower p = str "tag" ∨ lower p = str "标签") := by
      intro h
      rcases hfk with hfk | hfk <;> rcases h with h | h <;>
        (rw [hfk] at h; exact absurd h (by decide))
    have hne2 : ¬(lower p = str "tier" ∨ lower p = str "品质") := by
      intro h
      rcases hfk with hfk | hfk <;> rcases h with h | h <;>
        (rw [hfk] at h; exact absurd h (by decide))
    have hcls : classifyToken vocab (p ++ ':' :: v) = .addHero v := by
      rw [classifyToken_colon, classifyColon_eq p v hp, if_neg hne1, if_neg hne2,
        if_pos hfk]
    have hstep : parseToken vocab (parseTokens vocab acc pre) (p ++ ':' :: v) =
        { parseTokens vocab acc pre with
          heroes := (parseTokens vocab acc pre).heroes ++ [v] } := by
      unfold parseToken
      rw [hcls]
      rfl
    rw [hstep]
    obtain ⟨s1, s2, s3, s4, s5, hf⟩ := parseTokens_fields vocab post _
    rw [hf]
    simp
  · intro hfk
    rw [parseTokens_split]
    have hne1 : ¬(lower p = str "tag" ∨ lower p = str "标签") := by
      intro h
      rcases hfk with hfk | hfk <;> rcases h with h | h <;>
        (rw [hfk] at h; exact absurd h (by decide))
    have hne2 : ¬(lower p = str "tier" ∨ lower p = str "品质") := by
      intro h
      rcases hfk with hfk | hfk <;> rcases h with h | h <;>
        (rw [hfk] at h; exact absurd h (by decide))
    have hne3 : ¬(lower p = str "hero" ∨ lower p = str "英雄") := by
      intro h
      rcases hfk with hfk | hfk <;> rcases h with h | h <;>
        (rw [hfk] at h; exact absurd h (by decide))
    have hcls : classifyToken vocab (p ++ ':' :: v) = .addSize v := by
      rw [classifyToken_colon, classifyColon_eq p v hp, if_neg hne1, if_neg hne2,
        if_neg hne3, if_pos hfk]
    have hstep : parseToken vocab (parseTokens vocab acc pre) (p ++ ':' :: v) =
        { parseTokens vocab acc pre with
          sizes := (parseTokens vocab acc pre).sizes ++ [v] } := by
      unfold parseToken
      rw [hcls]
      rfl
    rw [hstep]
    obtain ⟨s1, s2, s3, s4, s5, hf⟩ := parseTokens_fields vocab post _
    rw [hf]
    simp

/-- Witness for C3 at a concrete input: a `tag:` token contributes to the
tag list. -/
theorem parseConditions_facets_witness :
    str "Weapon" ∈ (parseTokens [] ⟨[], [], [], [], []⟩ [str "tag:Weapon"]).tags :=
  (parseConditions_facets [] ⟨[], [], [], [], []⟩ [] [] (str "tag") (str "Weapon")
    (by decide)).1 (Or.inl rfl)

/-- C9: a `foo:bar` token whose key (before the first `':'`, case-folded) is
none of the recognized facet keys is not an error: the whole token is
accumulated as keyword material (the parse is total by construction), and
concretely `parse_conditions("foo:bar")` yields keyword `"foo:bar"` and empty
facet lists. -/
theorem parseConditions_malformed (vocab : VocabMap) (acc : ParseAcc)
    (pre post : List Str) (p v : Str) (hp : ∀ c ∈ p, c ≠ ':')
    (hfk : lower p ∉ [str "tag", str "标签", str "tier", str "品质",
      str "hero", str "英雄", str "size", str "尺寸"]) :
    (p ++ ':' :: v) ∈ (parseTokens vocab acc (pre ++ (p ++ ':' :: v) :: post)).keywords ∧
    parseConditions (stateVocab stEmpty) (str "foo:bar") =
      ⟨str "foo:bar", [], [], [], []⟩ := by
  simp only [List.mem_cons, List.mem_singleton, not_or] at hfk
  obtain ⟨h1, h2, h3, h4, h5, h6, h7, h8⟩ := hfk
  constructor
  · rw [parseTokens_split]
    have hcls : classifyToken vocab (p ++ ':' :: v) = .addKw (p ++ ':' :: v) := by
      rw [classifyToken_colon, classifyColon_eq p v hp,
        if_neg (by rintro (h | h) <;> simp_all),
        if_neg (by rintro (h | h) <;> simp_all),
        if_neg (by rintro (h | h) <;> simp_all),
        if_neg (by rintro (h | h) <;> simp_all)]
    have hstep : parseToken vocab (parseTokens vocab acc pre) (p ++ ':' :: v) =
        { parseTokens vocab acc pre with
          keywords := (parseTokens vocab acc pre).keywords ++ [p ++ ':' :: v] } := by
      unfold parseToken
      rw [hcls]
      rfl
    rw [hstep]
    obtain ⟨s1, s2, s3, s4, s5, hf⟩ := parseTokens_fields vocab post _
    rw [hf]
    simp
  · decide

/-- Witness for C9 at a concrete input: the token `foo:bar` lands in the
keyword list. -/
theorem parseConditions_malformed_witness :
    str "foo:bar" ∈ (parseTokens [] ⟨[], [], [], [], []⟩ [str "foo:bar"]).keywords :=
  (parseConditions_malformed [] ⟨[], [], [], [], []⟩ [] [] (str "foo") (str "bar")
    (by decide) (by decide)).1

/-- C10: a `tier:v` token whose case-folded value is not a key of `TIER_MAP`
contributes `v.capitalize()` (first character uppercased, rest lowered) to
the tier list; concretely `tier:legendary` yields `"Legendary"` and
`tier:GOLD` yields `"Gold"`. -/
theorem parseTier_default (vocab : VocabMap) (acc : ParseAcc) (v : Str)
    (hv : ∀ q ∈ tierMap, q.1 ≠ lower v) :
    parseToken vocab acc (str "tier" ++ ':' :: v) =
      { acc with tiers := acc.tiers ++ [capitalizePy v] } ∧
    parseConditions (stateVocab stEmpty) (str "tier:legendary") =
      ⟨[], [], [str "Legendary"], [], []⟩ ∧
    parseConditions (stateVocab stEmpty) (str "tier:GOLD") =
      ⟨[], [], [str "Gold"], [], []⟩ := by
  refine ⟨?_, by decide, by decide⟩
  have hp : ∀ c ∈ str "tier", c ≠ ':' := by decide
  have hnorm : tierNormalize v = capitalizePy v := by
    unfold tierNormalize
    rw [lookup_none_of tierMap (lower v) hv]
    rfl
  have hcls : classifyToken vocab (str "tier" ++ ':' :: v) =
      .addTier (tierNormalize v) := by
    rw [classifyToken_colon, classifyColon_eq (str "tier") v hp,
      if_neg (by rintro (h | h) <;> exact absurd h (by decide)),
      if_pos (Or.inl (show lower (str "tier") = str "tier" by decide))]
  unfold parseToken
  rw [hcls, hnorm]
  rfl

/-- Witness for C10 at a concrete input: `tier:Foobar` contributes
`capitalize("Foobar")`. -/
theorem parseTier_default_witness :
    parseToken [] ⟨[], [], [], [], []⟩ (str "tier:Foobar") =
      ⟨[], [capitalizePy (str "Foobar")], [], [], []⟩ :=
  (parseTier_default [] ⟨[], [], [], [], []⟩ (str "Foobar") (by decide)).1

/-! ## Catalog-filter lemmas (C4) -/

theorem mem_ite_filter {P : Prop} [Decidable P] (p : Item → Bool)
    (l : List Item) (it : Item) :
    (it ∈ if P then l.filter p else l) ↔ it ∈ l ∧ (P → p it = true) := by
  split
  · next h =>
    rw [List.mem_filter]
    exact ⟨fun ⟨h1, h2⟩ => ⟨h1, fun _ => h2⟩, fun ⟨h1, h2⟩ => ⟨h1, h2 h⟩⟩
  · next h =>
    exact ⟨fun h1 => ⟨h1, fun hP => absurd hP h⟩, fun h1 => h1.1⟩

/-- C4 (amended): membership characterization of `_filter_items` — tag and
hero values are conjunctive (each must occur as a substring), the tier facet
is a disjunctive membership test on the cleaned starting tier, the size facet
is disjunctive (`any`), and the free keyword is substring-matched against the
space-joined name and facet fields. -/
theorem filterItems_mem (items : List Item) (c : Conditions) (it : Item) :
    it ∈ filterItems items c ↔
      it ∈ items
      ∧ (∀ t ∈ c.tags, isSubOf (lower t) (lower (it.tags ++ ' ' :: it.hidden_tags)) = true)
      ∧ (c.tiers = [] ∨ cleanTier it.starting_tier ∈ c.tiers)
      ∧ (∀ h ∈ c.heroes, isSubOf (lower h) (lower it.heroes) = true)
      ∧ (c.sizes = [] ∨ ∃ s ∈ c.sizes, isSubOf (lower s) (lower it.size) = true)
      ∧ (c.keyword = [] ∨ isSubOf (lower c.keyword) (itemSearchable it) = true) := by
  have htags : (c.tags ≠ [] →
      (c.tags.all fun t =>
        isSubOf (lower t) (lower (it.tags ++ ' ' :: it.hidden_tags))) = true) ↔
      (∀ t ∈ c.tags, isSubOf (lower t) (lower (it.tags ++ ' ' :: it.hidden_tags)) = true) := by
    constructor
    · intro h t ht
      exact List.all_eq_true.mp (h (List.ne_nil_of_mem ht)) t ht
    · intro h _
      exact List.all_eq_true.mpr h
  have hheroes : (c.heroes ≠ [] →
      (c.heroes.all fun x => isSubOf (lower x) (lower it.heroes)) = true) ↔
      (∀ x ∈ c.heroes, isSubOf (lower x) (lower it.heroes) = true) := by
    constructor
    · intro h x hx
      exact List.all_eq_true.mp (h (List.ne_nil_of_mem hx)) x hx
    · intro h _
      exact List.all_eq_true.mpr h
  have htiers : (c.tiers ≠ [] → decide (cleanTier it.starting_tier ∈ c.tiers) = true) ↔
      (c.tiers = [] ∨ cleanTier it.starting_tier ∈ c.tiers) := by
    by_cases h : c.tiers = [] <;> simp [h]
  have hsizes : (c.sizes ≠ [] →
      (c.sizes.any fun s => isSubOf (lower s) (lower it.size)) = true) ↔
      (c.sizes = [] ∨ ∃ s ∈ c.sizes, isSubOf (lower s) (lower it.size) = true) := by
    by_cases h : c.sizes = [] <;> simp [h, List.any_eq_true]
  have hkw : (c.keyword ≠ [] → isSubOf (lower c.keyword) (itemSearchable it) = true) ↔
      (c.keyword = [] ∨ isSubOf (lower c.keyword) (itemSearchable it) = true) := by
    by_cases h : c.keyword = [] <;> simp [h]
  unfold filterItems filterByKw filterBySizes filterByHeroes filterByTiers filterByTags
  rw [mem_ite_filter, mem_ite_filter, mem_ite_filter, mem_ite_filter, mem_ite_filter]
  rw [hkw, hsizes, hheroes, htiers, htags]
  simp only [and_assoc]

/-- C4 counterexample: two values in the `sizes` facet are not conjunctive —
the `Small` item passes the filter although it does not satisfy the value
`Large`. -/
theorem filterItems_c4_cex :
    filterItems [itemSmall] condsTwoSizes = [itemSmall] ∧
    str "Large" ∈ condsTwoSizes.sizes ∧
    isSubOf (lower (str "Large")) (lower itemSmall.size) = false := by decide

/-! ## Sorting and fuzzy-suggestion lemmas (C6) -/

theorem mem_insBefore (le : α → α → Bool) (x z : α) :
    ∀ l : List α, z ∈ insBefore le x l ↔ z = x ∨ z ∈ l := by
  intro l
  induction l with
  | nil => simp [insBefore]
  | cons y ys ih =>
    unfold insBefore
    split
    · simp [List.mem_cons]
    · simp only [List.mem_cons, ih]
      tauto

theorem mem_sortStable (le : α → α → Bool) (z : α) :
    ∀ l : List α, z ∈ sortStable le l ↔ z ∈ l := by
  intro l
  induction l with
  | nil => simp [sortStable]
  | cons y ys ih =>
    unfold sortStable
    rw [mem_insBefore, ih]
    simp [List.mem_cons]

theorem pairwise_insBefore (le : α → α → Bool)
    (htot : ∀ a b, le a b = true ∨ le b a = true)
    (htrans : ∀ a b c, le a b = true → le b c = true → le a c = true)
    (x : α) :
    ∀ l : List α, List.Pairwise (fun a b => le a b = true) l →
      List.Pairwise (fun a b => le a b = true) (insBefore le x l) := by
  intro l
  induction l with
  | nil => intro _; simp [insBefore]
  | cons y ys ih =>
    intro hl
    rw [List.pairwise_cons] at hl
    obtain ⟨hy, hys⟩ := hl
    unfold insBefore
    split
    · next hxy =>
      rw [List.pairwise_cons]
      refine ⟨?_, List.pairwise_cons.mpr ⟨hy, hys⟩⟩
      intro z hz
      rcases List.mem_cons.mp hz with rfl | hz'
      · exact hxy
      · exact htrans x y z hxy (hy z hz')
    · next hxy =>
      rw [List.pairwise_cons]
      refine ⟨?_, ih hys⟩
      intro z hz
      rcases (mem_insBefore le x z ys).mp hz with hzx | hz'
      · rw [hzx]
        rcases htot x y with h | h
        · exact absurd h hxy
        · exact h
      · exact hy z hz'

theorem sortStable_sorted (le : α → α → Bool)
    (htot : ∀ a b, le a b = true ∨ le b a = true)
    (htrans : ∀ a b c, le a b = true → le b c = true → le a c = true) :
    ∀ l : List α, List.Pairwise (fun a b => le a b = true) (sortStable le l) := by
  intro l
  induction l with
  | nil => simp [sortStable]
  | cons y ys ih => exact pairwise_insBefore le htot htrans y _ ih

theorem bestDistFold_some (kw : Str) (th : Nat) :
    ∀ (names : List Str) (best : Option Nat) (d : Nat),
      bestDistFold kw th names best = some d →
      best = some d ∨ ∃ name ∈ names, name ≠ [] ∧
        (isSubOf kw (lower name) = true ∨ isSubOf (lower name) kw = true ∨
         editDistance kw (lower name) ≤ th) := by
  intro names
  induction names with
  | nil =>
    intro best d h
    left
    exact h
  | cons name rest ih =>
    intro best d h
    unfold bestDistFold at h
    split at h
    · rcases ih best d h with h' | ⟨n, hn, hcond⟩
      · left; exact h'
      · right; exact ⟨n, by simp [hn], hcond⟩
    · next hne =>
      split at h
      · next hcont =>
        cases h
        right
        refine ⟨name, by simp, hne, ?_⟩
        rcases (by simpa using hcont :
            isSubOf kw (lower name) = true ∨ isSubOf (lower name) kw = true) with h | h
        · exact Or.inl h
        · exact Or.inr (Or.inl h)
      · split at h
        · rcases ih best d h with h' | ⟨n, hn, hcond⟩
          · left; exact h'
          · right; exact ⟨n, by simp [hn], hcond⟩
        · split at h
          · next hdist =>
            cases hbest : best with
            | none =>
              rw [hbest] at h
              rcases ih (some (editDistance kw (lower name))) d h with h' | ⟨n, hn, hcond⟩
              · right
                cases h'
                exact ⟨name, by simp, hne, Or.inr (Or.inr hdist)⟩
              · right; exact ⟨n, by simp [hn], hcond⟩
            | some b =>
              rw [hbest] at h
              rcases ih _ d h with h' | ⟨n, hn, hcond⟩
              · by_cases hlt : editDistance kw (lower name) < b
                · rw [if_pos hlt] at h'
                  cases h'
                  right
                  exact ⟨name, by simp, hne, Or.inr (Or.inr hdist)⟩
                · rw [if_neg hlt] at h'
                  cases h'
                  left
                  rfl
              · right; exact ⟨n, by simp [hn], hcond⟩
          · rcases ih best d h with h' | ⟨n, hn, hcond⟩
            · left; exact h'
            · right; exact ⟨n, by simp [hn], hcond⟩

theorem mem_mkCandidates (kw : Str) (th : Nat) :
    ∀ (entries : List (Str × Str × Str)) (dc : Nat × Str),
      dc ∈ mkCandidates kw th entries →
      ∃ e ∈ entries, dc.2 = e.2.2 ∧
        bestDistFold kw th [e.1, e.2.1] none = some dc.1 := by
  intro entries
  induction entries with
  | nil => intro dc h; cases h
  | cons e rest ih =>
    intro dc h
    obtain ⟨cn, en, disp⟩ := e
    unfold mkCandidates at h
    split at h
    · next d hbd =>
      rcases List.mem_cons.mp h with rfl | h'
      · exact ⟨(cn, en, disp), by simp, rfl, by simpa using hbd⟩
      · obtain ⟨e', he', h1, h2⟩ := ih dc h'
        exact ⟨e', by simp [he'], h1, h2⟩
    · obtain ⟨e', he', h1, h2⟩ := ih dc h
      exact ⟨e', by simp [he'], h1, h2⟩

/-- C6: `suggest(query, limit)` returns `[]` for queries shorter than 2
characters; otherwise it is the display of at most `limit` candidates, drawn
from the sorted-by-distance candidate list, and every candidate comes from a
catalog entry one of whose names is non-empty and either contains / is
contained in the case-folded query (distance 0) or is within edit distance
`max(1, len(query) // 3)` of it. -/
theorem fuzzySuggest_spec (st : BazaarState) (query : Str) (limit : Nat) :
    (query.length < 2 → fuzzySuggest st query limit = []) ∧
    (fuzzySuggest st query limit).length ≤ limit ∧
    ∃ cands : List (Nat × Str),
      List.Pairwise (fun a b : Nat × Str => a.1 ≤ b.1) cands ∧
      fuzzySuggest st query limit = (cands.take limit).map Prod.snd ∧
      ∀ dc ∈ cands, ∃ e ∈ fuzzyEntries st, dc.2 = e.2.2 ∧
        ∃ name, (name = e.1 ∨ name = e.2.1) ∧ name ≠ [] ∧
          (isSubOf (lower query) (lower name) = true ∨
           isSubOf (lower name) (lower query) = true ∨
           editDistance (lower query) (lower name) ≤ max 1 (query.length / 3)) := by
  have hlen : (lower query).length = query.length := List.length_map _ _
  by_cases hq : query.length < 2
  · have hres : fuzzySuggest st query limit = [] := by
      unfold fuzzySuggest
      rw [if_pos (by rw [hlen]; exact hq)]
    refine ⟨fun _ => hres, by rw [hres]; simp, [], by simp, by rw [hres]; simp, by simp⟩
  · have hres : fuzzySuggest st query limit =
        ((sortStable (fun a b => decide (a.1 ≤ b.1))
            (mkCandidates (lower query) (max 1 ((lower query).length / 3))
              (fuzzyEntries st))).take limit).map Prod.snd := by
      unfold fuzzySuggest
      rw [if_neg (by rw [hlen]; exact hq)]
    refine ⟨fun h => absurd h hq, ?_,
      sortStable (fun a b => decide (a.1 ≤ b.1))
        (mkCandidates (lower query) (max 1 ((lower query).length / 3))
          (fuzzyEntries st)), ?_, hres, ?_⟩
    · rw [hres, List.length_map]
      exact List.length_take_le _ _
    · have hsorted := sortStable_sorted (fun a b : Nat × Str => decide (a.1 ≤ b.1))
        (fun a b => by
          rcases Nat.le_total a.1 b.1 with h | h
          · exact Or.inl (decide_eq_true h)
          · exact Or.inr (decide_eq_true h))
        (fun a b c h1 h2 =>
          decide_eq_true (Nat.le_trans (of_decide_eq_true h1) (of_decide_eq_true h2)))
        (mkCandidates (lower query) (max 1 ((lower query).length / 3)) (fuzzyEntries st))
      exact hsorted.imp fun h => of_decide_eq_true h
    · intro dc hdc
      have hmem : dc ∈ mkCandidates (lower query) (max 1 ((lower query).length / 3))
          (fuzzyEntries st) := (mem_sortStable _ _ _).mp hdc
      obtain ⟨e, he, hdisp, hbd⟩ := mem_mkCandidates _ _ _ dc hmem
      refine ⟨e, he, hdisp, ?_⟩
      rcases bestDistFold_some _ _ _ _ _ hbd with h' | ⟨name, hn, hne, hcond⟩
      · cases h'
      · refine ⟨name, ?_, hne, ?_⟩
        · rcases List.mem_cons.mp hn with rfl | hn'
          · exact Or.inl rfl
          · exact Or.inr (List.mem_singleton.mp hn')
        · rw [← hlen]
          exact hcond

/-- Witness for C6 at concrete inputs: the short query `"x"` yields no
suggestions (via the theorem), and the one-edit typo `"brnze"` of the item
name `Bronze` yields that item's display entry. -/
theorem fuzzySuggest_spec_witness :
    fuzzySuggest stBronze (str "x") 8 = [] ∧
    fuzzySuggest stBronze (str "brnze") 8 = [str "📦 (Bronze)"] ∧
    editDistance (lower (str "brnze")) (lower (str "Bronze")) = 1 := by
  refine ⟨(fuzzySuggest_spec stBronze (str "x") 8).1 (by decide), by decide, by decide⟩
